import Mathlib

/-!
Verification development for the ConversaAI Transcript Analytics Engine.

The repository ships the deployment scaffolding, the exploratory notebook and
the frontend (static/js/main.js); the backend engine modules listed in the
README (app/core/data_processor.py, app/core/sentiment_analyzer.py,
app/core/llm_analyzer.py) are not part of the checked-in sources, so the
engine-level definitions below are modelled from the specification's wording.
The frontend definitions are embedded from static/js/main.js.
-/

namespace ConversaAI

/-- Computed sentiment label of a message. -/
inductive Label where
  | positive
  | negative
  | neutral
  deriving DecidableEq, Repr

/-- Outcome of reconciling the lexical signal with the model signal. -/
structure ReconcileResult where
  label : Label
  confidence : ℚ
  degraded : Bool
  deriving DecidableEq, Repr

/-- Modelled from the spec: the sentiment reconciliation policy of §4.4
(app/core/sentiment_analyzer.py is absent from the sources). The lexical
signal is a label with a normalized confidence; the model signal is a label
with its confidence, or `none` when the model service is unavailable. On
agreement the confidence is the average of the two confidences plus the
agreement bonus, capped at 1; on disagreement the model label wins with its
confidence reduced by the disagreement penalty; without a model signal the
lexical signal is used alone and the message is flagged degraded. -/
def reconcile (agreementBonus disagreementPenalty : ℚ)
    (lex : Label × ℚ) (model : Option (Label × ℚ)) : ReconcileResult :=
  match model with
  | none => { label := lex.1, confidence := lex.2, degraded := true }
  | some (mLabel, mConf) =>
    if mLabel = lex.1 then
      { label := mLabel
        confidence := min 1 ((lex.2 + mConf) / 2 + agreementBonus)
        degraded := false }
    else
      { label := mLabel
        confidence := mConf - disagreementPenalty
        degraded := false }

/-- Modelled from the spec: label precedence used as the final tie-break in
per-agent aggregation (§4.4): positive over neutral over negative. -/
def prec : Label → Nat
  | .positive => 2
  | .neutral => 1
  | .negative => 0

/-- Number of an agent's messages carrying a given computed label. -/
def countLabel (msgs : List (Label × ℚ)) (l : Label) : Nat :=
  (msgs.filter (fun m => m.1 = l)).length

/-- Total summed confidence of an agent's messages carrying a given label. -/
def sumConf (msgs : List (Label × ℚ)) (l : Label) : ℚ :=
  ((msgs.filter (fun m => m.1 = l)).map (fun m => m.2)).sum

/-- Tie-break key of a label for one agent: message count, then summed
confidence, then label precedence. -/
def keyFor (msgs : List (Label × ℚ)) (l : Label) : Nat × ℚ × Nat :=
  (countLabel msgs l, sumConf msgs l, prec l)

/-- Lexicographic comparison of tie-break keys (greater-or-equal). -/
def keyGE (a b : Nat × ℚ × Nat) : Bool :=
  decide (b.1 < a.1) ||
    (decide (a.1 = b.1) &&
      (decide (b.2.1 < a.2.1) || (decide (a.2.1 = b.2.1) && decide (b.2.2 ≤ a.2.2))))

/-- Modelled from the spec: the per-agent overall label (§4.4) is the mode of
the agent's message labels, ties broken by higher total summed confidence,
then by the precedence positive over neutral over negative
(app/core/sentiment_analyzer.py is absent from the sources). -/
def bestLabel (msgs : List (Label × ℚ)) : Label :=
  let kp := keyFor msgs .positive
  let kn := keyFor msgs .neutral
  let kg := keyFor msgs .negative
  if keyGE kp kn && keyGE kp kg then .positive
  else if keyGE kn kg then .neutral
  else .negative

/-- Modelled from the spec: per-agent aggregation (§4.4); an empty message
set yields neutral with confidence 0 rather than an error, otherwise the
winning label together with the average confidence of its messages. -/
def aggregateAgent (msgs : List (Label × ℚ)) : Label × ℚ :=
  match msgs with
  | [] => (.neutral, 0)
  | _ :: _ =>
    let l := bestLabel msgs
    (l, sumConf msgs l / (countLabel msgs l : ℚ))

/-- A message that survived schema validation and cleaning. -/
structure ValidMessage where
  text : String
  agent : String
  deriving DecidableEq, Repr

/-- A cleaned transcript as handed to the Tabular Transformer. -/
structure CleanedTranscript where
  tid : String
  articleUrl : Option String
  messages : List ValidMessage
  deriving DecidableEq, Repr

/-- One flattened row of the canonical tabular record set. -/
structure Row where
  transcriptId : String
  articleUrl : Option String
  agent : String
  position : Nat
  text : String
  deriving DecidableEq, Repr

/-- Rows of one transcript starting at a given ordinal position. -/
def rowsFrom (tid : String) (url : Option String) : Nat → List ValidMessage → List Row
  | _, [] => []
  | i, m :: rest =>
    { transcriptId := tid, articleUrl := url, agent := m.agent,
      position := i, text := m.text } :: rowsFrom tid url (i + 1) rest

/-- Modelled from the spec: the Tabular Transformer (§4.3) flattens one
cleaned transcript into one row per message, annotated with transcript id,
article URL, agent id and 0-based ordinal position in content order
(app/core/data_processor.py is absent from the sources). -/
def transcriptRows (t : CleanedTranscript) : List Row :=
  rowsFrom t.tid t.articleUrl 0 t.messages

/-- Modelled from the spec: the Tabular Transformer's output over the whole
cleaned transcript mapping, one ordered sequence of rows. -/
def flattenRows : List CleanedTranscript → List Row
  | [] => []
  | t :: rest => transcriptRows t ++ flattenRows rest

/-- Modelled from the spec: grouping key of a row for article statistics
(§4.5); a missing article URL groups under the sentinel "unknown" bucket. -/
def articleKey (r : Row) : String := r.articleUrl.getD "unknown"

/-- Distinct article buckets present in a row sequence. -/
def articleKeys (rows : List Row) : List String := (rows.map articleKey).dedup

/-- Message count of one article bucket. -/
def articleMessageCount (rows : List Row) (k : String) : Nat :=
  (rows.filter (fun r => articleKey r == k)).length

/-- Modelled from the spec: the total message count reported in
DatasetSummary (§3) is the number of rows of the cleaned dataset. -/
def datasetTotalMessages (rows : List Row) : Nat := rows.length

/-- Modelled from the spec: the average of a list of rationals, defined as
exactly 0 for an empty list so that no aggregation divides by zero (§4.5). -/
def avgQ (l : List ℚ) : ℚ := if l.length = 0 then 0 else l.sum / (l.length : ℚ)

/-- A character outside the printable range (stripped by the Cleaner). -/
def isControlChar (c : Char) : Bool := c.toNat < 32 || c.toNat = 127

/-- Splits a character list at whitespace into maximal non-empty tokens; the
accumulator holds the current token reversed. -/
def tokensAux : List Char → List Char → List (List Char)
  | [], acc => if acc = [] then [] else [acc.reverse]
  | c :: rest, acc =>
    if c.isWhitespace then
      if acc = [] then tokensAux rest [] else acc.reverse :: tokensAux rest []
    else tokensAux rest (c :: acc)

/-- Whitespace-delimited tokens of a string. -/
def tokens (s : String) : List String := (tokensAux s.toList []).map String.mk

/-- Whitespace-delimited token count of a message text (§4.5). -/
def wordCount (s : String) : Nat := (tokens s).length

/-- A row with its computed sentiment. -/
structure ScoredRow where
  row : Row
  label : Label
  confidence : ℚ
  deriving DecidableEq, Repr

/-- Per-agent statistics of the Statistics Aggregator. -/
structure AgentStatistics where
  agentId : String
  totalMessages : Nat
  avgWordCount : ℚ
  avgSentimentConfidence : ℚ
  uniqueTranscripts : Nat
  deriving DecidableEq, Repr

/-- Modelled from the spec: the Statistics Aggregator's per-agent metrics
(§4.5), grouping the scored rows on agent id
(app/core/data_processor.py is absent from the sources). -/
def agentStatistics (rows : List ScoredRow) (a : String) : AgentStatistics :=
  let ms := rows.filter (fun r => r.row.agent == a)
  { agentId := a
    totalMessages := ms.length
    avgWordCount := avgQ (ms.map (fun r => (wordCount r.row.text : ℚ)))
    avgSentimentConfidence := avgQ (ms.map (fun r => r.confidence))
    uniqueTranscripts := ((ms.map (fun r => r.row.transcriptId)).dedup).length }

/-- JSON-like raw values of the untyped input dataset. -/
inductive Raw where
  | null
  | bool (b : Bool)
  | num (q : ℚ)
  | str (s : String)
  | arr (elements : List Raw)
  | obj (fields : List (String × Raw))

/-- Validation failure reasons of the Schema Validator (§4.1). -/
inductive Reason where
  | missing_content
  | missing_message
  | missing_agent
  | not_a_mapping
  deriving DecidableEq, Repr

/-- A transcript payload that passed schema validation. -/
structure ValidTranscript where
  articleUrl : Option String
  messages : List ValidMessage
  deriving DecidableEq, Repr

/-- First value bound to a key in a raw object's field list. -/
def lookupField : List (String × Raw) → String → Option Raw
  | [], _ => none
  | (k', v) :: rest, k => if k' = k then some v else lookupField rest k

/-- Field access on a raw value; `none` on non-objects. -/
def Raw.field : Raw → String → Option Raw
  | .obj fs, k => lookupField fs k
  | _, _ => none

/-- Modelled from the spec: validation of one content element (§4.1): it must
carry a non-empty `message` string and an `agent` identifier, otherwise the
reasons missing_message and missing_agent apply
(app/core/data_processor.py is absent from the sources). -/
def checkMessage (el : Raw) : Except Reason ValidMessage :=
  match el.field "message" with
  | some (.str s) =>
    if s = "" then .error .missing_message
    else
      match el.field "agent" with
      | some (.str a) => .ok ⟨s, a⟩
      | _ => .error .missing_agent
  | _ => .error .missing_message

/-- Validation of a whole content sequence; the first offending element's
reason is reported. -/
def checkContent : List Raw → Except Reason (List ValidMessage)
  | [] => .ok []
  | el :: rest =>
    match checkMessage el with
    | .error e => .error e
    | .ok m =>
      match checkContent rest with
      | .error e => .error e
      | .ok ms => .ok (m :: ms)

/-- Article URL of a raw payload, when present as a string. -/
def getArticleUrl (p : Raw) : Option String :=
  match p.field "article_url" with
  | some (.str s) => some s
  | _ => none

/-- Modelled from the spec: the Schema Validator's check of one raw entry
(§4.1): the payload must be a mapping whose `content` is a sequence of valid
message elements; a violation yields exactly one of the reasons
not_a_mapping, missing_content, missing_message, missing_agent instead of an
exception (app/core/data_processor.py is absent from the sources). -/
def validateEntry (p : Raw) : Except Reason ValidTranscript :=
  match p with
  | .obj fs =>
    match lookupField fs "content" with
    | some (.arr els) =>
      match checkContent els with
      | .ok ms => .ok ⟨getArticleUrl p, ms⟩
      | .error e => .error e
    | _ => .error .missing_content
  | _ => .error .not_a_mapping

/-- Modelled from the spec: dataset-level validation (§4.1, §4.6): every
entry is either validated or reported in the error list with its reason; a
malformed entry never aborts the batch. -/
def validateDataset : List (String × Raw) →
    List (String × ValidTranscript) × List (String × Reason)
  | [] => ([], [])
  | (tid, p) :: rest =>
    let vr := validateDataset rest
    match validateEntry p with
    | .ok t => ((tid, t) :: vr.1, vr.2)
    | .error e => (vr.1, (tid, e) :: vr.2)

/-- Modelled from the spec: the Cleaner's text normalization (§4.2): strips
control characters, trims surrounding whitespace and collapses internal
whitespace runs to single spaces
(app/core/data_processor.py is absent from the sources). -/
def normalizeText (s : String) : String :=
  String.intercalate " "
    ((tokensAux (s.toList.filter (fun c => !isControlChar c || c.isWhitespace)) []).map
      (fun cs => String.mk cs))

/-- Deduplication key of a message within its transcript: exact text and
agent. -/
def msgKey (m : ValidMessage) : String × String := (m.text, m.agent)

/-- Removes later elements whose key already occurred, keeping the first
occurrence of each key in original order. -/
def dedupKeepFirst {α K : Type} [DecidableEq K] (key : α → K) : List α → List α
  | [] => []
  | x :: rest => x :: dedupKeepFirst key (rest.filter (fun y => key y ≠ key x))
termination_by l => l.length
decreasing_by
  exact Nat.lt_succ_of_le (List.length_filter_le _ _)

/-- Normalization and empty-drop step of the Cleaner, before deduplication. -/
def preClean (ms : List ValidMessage) : List ValidMessage :=
  (ms.map (fun m => { m with text := normalizeText m.text })).filter
    (fun m => m.text ≠ "")

/-- Modelled from the spec: the Cleaner (§4.2) normalizes each message text,
drops messages empty after normalization and deduplicates exact
text-and-agent duplicates keeping the first occurrence in original order
(app/core/data_processor.py is absent from the sources). -/
def cleanMessages (ms : List ValidMessage) : List ValidMessage :=
  dedupKeepFirst msgKey (preClean ms)

/-- Cleaned transcript built from a validated dataset entry. -/
def toCleaned (p : String × ValidTranscript) : CleanedTranscript :=
  ⟨p.1, p.2.articleUrl, cleanMessages p.2.messages⟩

/-- Modelled from the spec: the orchestrator's `transform` operation (§4.6):
Validator, then Cleaner, then Tabular Transformer, returning the flattened
rows together with the per-entry error list
(app/core/data_processor.py is absent from the sources). -/
def transform (d : List (String × Raw)) : List Row × List (String × Reason) :=
  let vr := validateDataset d
  (flattenRows (vr.1.map toCleaned), vr.2)

/-- Reply of the external summarization collaborator: an outright
failure/timeout, or whatever raw value the service returned. -/
inductive SummaryReply where
  | failure
  | value (v : Raw)

/-- Modelled from the spec: the orchestrator accepts a returned summary only
when it is a non-empty string, substituting the deterministic fallback
"summary unavailable" otherwise (§4.6)
(app/core/llm_analyzer.py is absent from the sources). -/
def validateSummary : SummaryReply → String
  | .failure => "summary unavailable"
  | .value (.str s) => if s = "" then "summary unavailable" else s
  | .value _ => "summary unavailable"

/-- Result object of the orchestrator's `analyze` operation (§4.6). -/
structure AnalyzeResult where
  articleUrl : Option String
  agent1Messages : Nat
  agent2Messages : Nat
  agent1Sentiment : Label × ℚ
  agent2Sentiment : Label × ℚ
  sentimentCounts : Nat × Nat × Nat
  transcriptSummary : String
  deriving DecidableEq, Repr

/-- Modelled from the spec: the orchestrator's `analyze` operation (§4.6) on
one validated transcript, parametrized by the per-message sentiment scorer
and by the summarization collaborator's reply
(app/core/llm_analyzer.py is absent from the sources). -/
def analyze (t : ValidTranscript) (scorer : String → Label × ℚ)
    (reply : SummaryReply) : AnalyzeResult :=
  let ms := cleanMessages t.messages
  let scored := ms.map (fun m => (m.agent, scorer m.text))
  let a1 := scored.filter (fun pr => pr.1 = "agent_1")
  let a2 := scored.filter (fun pr => pr.1 = "agent_2")
  { articleUrl := t.articleUrl
    agent1Messages := a1.length
    agent2Messages := a2.length
    agent1Sentiment := aggregateAgent (a1.map (fun pr => pr.2))
    agent2Sentiment := aggregateAgent (a2.map (fun pr => pr.2))
    sentimentCounts :=
      ((scored.filter (fun pr => pr.2.1 = Label.positive)).length,
       (scored.filter (fun pr => pr.2.1 = Label.neutral)).length,
       (scored.filter (fun pr => pr.2.1 = Label.negative)).length)
    transcriptSummary := validateSummary reply }

/-- The fields of an analyze result other than the generated summary. -/
def analysisCore (r : AnalyzeResult) :
    Option String × Nat × Nat × (Label × ℚ) × (Label × ℚ) × (Nat × Nat × Nat) :=
  (r.articleUrl, r.agent1Messages, r.agent2Messages,
   r.agent1Sentiment, r.agent2Sentiment, r.sentimentCounts)

/-- Input method selected in the frontend dashboard. -/
inductive InputMethod where
  | paste
  | upload
  deriving DecidableEq, Repr

/-- Frontend state read and written by the analyze button click handler. -/
structure FrontendState where
  transcriptInputValue : String
  fileContent : Option String
  analysisResultsHidden : Bool
  resultsContent : String
  summaryContent : String
  deriving DecidableEq, Repr

/-- Observable action taken by the analyze click handler before any network
activity: an alert with an early return, or a POST request to /api/analyze
with the given JSON source text. -/
inductive HandlerAction where
  | alert (msg : String)
  | request (jsonString : String)
  deriving DecidableEq, Repr

/-- JavaScript whitespace characters handled by String.prototype.trim. -/
def isJsWs (c : Char) : Bool :=
  decide (c = ' ') || decide (c = '\t') || decide (c = '\n') || decide (c = '\r')

/-- JavaScript String.prototype.trim: removes leading and trailing
whitespace. -/
def jsTrim (s : String) : String :=
  String.mk (((s.toList.dropWhile isJsWs).reverse.dropWhile isJsWs).reverse)

/-- Embedded from static/js/main.js (analyze button click handler, lines
329-360): with the paste method an empty-after-trim input alerts and
returns; otherwise the trimmed text must parse as JSON before the request is
made; with the upload method a missing stored file content alerts and
returns, otherwise the file content must parse as JSON. JSON.parse is
modelled by the deterministic `parse` parameter, `none` meaning it throws.
The returned state is the state after the guard; early returns leave it
unchanged. -/
def analyzeClick (parse : String → Option Raw) (method : InputMethod)
    (st : FrontendState) : HandlerAction × FrontendState :=
  match method with
  | .paste =>
    if jsTrim st.transcriptInputValue = "" then
      (.alert "Please paste transcript JSON", st)
    else
      match parse (jsTrim st.transcriptInputValue) with
      | none => (.alert "Invalid JSON format", st)
      | some _ => (.request (jsTrim st.transcriptInputValue), st)
  | .upload =>
    match st.fileContent with
    | none => (.alert "Please upload a JSON file", st)
    | some fc =>
      match parse fc with
      | none => (.alert "Invalid JSON file format", st)
      | some _ => (.request fc, st)

/-- A JavaScript value as it can appear in the article_url field of an
analyze response: missing, null, or a string. -/
inductive JsValue where
  | undef
  | null
  | str (s : String)
  deriving DecidableEq, Repr

/-- JavaScript truthiness of such a value: undefined and null are falsy, a
string is truthy exactly when non-empty. -/
def jsTruthy : JsValue → Bool
  | .undef => false
  | .null => false
  | .str s => decide (s ≠ "")

/-- String interpolation of a JavaScript value in a template literal. -/
def jsStringOf : JsValue → String
  | .undef => "undefined"
  | .null => "null"
  | .str s => s

/-- The JavaScript expression `a || b` specialized to a string default: the
left operand when truthy, the default otherwise. -/
def jsOr (a : JsValue) (b : String) : String :=
  if jsTruthy a then jsStringOf a else b

/-- Embedded from static/js/main.js line 406: the Article Information field
renders `analysis.article_url || 'N/A'`. -/
def renderArticleUrl (v : JsValue) : String := jsOr v "N/A"

theorem keyGE_iff (a b : Nat × ℚ × Nat) :
    keyGE a b = true ↔
      b.1 < a.1 ∨ (a.1 = b.1 ∧ (b.2.1 < a.2.1 ∨ (a.2.1 = b.2.1 ∧ b.2.2 ≤ a.2.2))) := by
  simp [keyGE]

theorem keyGE_total (a b : Nat × ℚ × Nat) : keyGE a b = true ∨ keyGE b a = true := by
  rw [keyGE_iff, keyGE_iff]
  rcases lt_trichotomy a.1 b.1 with h1 | h1 | h1
  · right; left; exact h1
  · rcases lt_trichotomy a.2.1 b.2.1 with h2 | h2 | h2
    · right; right; exact ⟨h1.symm, Or.inl h2⟩
    · rcases le_total b.2.2 a.2.2 with h3 | h3
      · left; right; exact ⟨h1, Or.inr ⟨h2, h3⟩⟩
      · right; right; exact ⟨h1.symm, Or.inr ⟨h2.symm, h3⟩⟩
    · left; right; exact ⟨h1, Or.inl h2⟩
  · left; left; exact h1

theorem keyGE_trans (a b c : Nat × ℚ × Nat)
    (hab : keyGE a b = true) (hbc : keyGE b c = true) : keyGE a c = true := by
  rw [keyGE_iff] at hab hbc ⊢
  rcases hab with h1 | ⟨h1, h1'⟩
  · rcases hbc with h2 | ⟨h2, _⟩
    · exact Or.inl (h2.trans h1)
    · exact Or.inl (h2 ▸ h1)
  · rcases hbc with h2 | ⟨h2, h2'⟩
    · exact Or.inl (h1 ▸ h2)
    · refine Or.inr ⟨h1.trans h2, ?_⟩
      rcases h1' with h3 | ⟨h3, h3'⟩
      · rcases h2' with h4 | ⟨h4, _⟩
        · exact Or.inl (h4.trans h3)
        · exact Or.inl (h4 ▸ h3)
      · rcases h2' with h4 | ⟨h4, h4'⟩
        · exact Or.inl (h3 ▸ h4)
        · exact Or.inr ⟨h3.trans h4, h4'.trans h3'⟩

theorem keyGE_refl (a : Nat × ℚ × Nat) : keyGE a a = true := by
  rw [keyGE_iff]
  exact Or.inr ⟨rfl, Or.inr ⟨rfl, le_refl _⟩⟩

theorem keyGE_of_not (a b : Nat × ℚ × Nat) (h : ¬ keyGE a b = true) :
    keyGE b a = true := (keyGE_total a b).resolve_left h

theorem bestLabel_max (msgs : List (Label × ℚ)) (l : Label) :
    keyGE (keyFor msgs (bestLabel msgs)) (keyFor msgs l) = true := by
  unfold bestLabel
  by_cases h1 : (keyGE (keyFor msgs .positive) (keyFor msgs .neutral) &&
      keyGE (keyFor msgs .positive) (keyFor msgs .negative)) = true
  · rw [if_pos h1]
    rcases Bool.and_eq_true_iff.mp h1 with ⟨hn, hg⟩
    cases l
    · exact keyGE_refl _
    · exact hg
    · exact hn
  · rw [if_neg h1]
    have hor : ¬ keyGE (keyFor msgs .positive) (keyFor msgs .neutral) = true ∨
        ¬ keyGE (keyFor msgs .positive) (keyFor msgs .negative) = true := by
      by_contra hc
      push_neg at hc
      exact h1 (Bool.and_eq_true_iff.mpr ⟨hc.1, hc.2⟩)
    by_cases h2 : keyGE (keyFor msgs .neutral) (keyFor msgs .negative) = true
    · rw [if_pos h2]
      cases l
      · rcases hor with hn | hg
        · exact keyGE_of_not _ _ hn
        · exact keyGE_trans _ _ _ h2 (keyGE_of_not _ _ hg)
      · exact h2
      · exact keyGE_refl _
    · rw [if_neg h2]
      have hgn : keyGE (keyFor msgs .negative) (keyFor msgs .neutral) = true :=
        keyGE_of_not _ _ h2
      cases l
      · rcases hor with hn | hg
        · exact keyGE_trans _ _ _ hgn (keyGE_of_not _ _ hn)
        · exact keyGE_of_not _ _ hg
      · exact keyGE_refl _
      · exact hgn

/-- Claim C1: sentiment reconciliation is a pure deterministic function of the
lexical and model signals: on agreement the combined confidence is the average
of the two confidences plus the agreement bonus capped at 1; on disagreement
the model label wins with its confidence reduced by the disagreement penalty;
when the model signal is unavailable the lexical label and confidence are used
and the result is flagged degraded; equal inputs give equal outputs. -/
theorem reconcile_policy (b p lc mc : ℚ) (ll ml : Label) :
    (ml = ll → reconcile b p (ll, lc) (some (ml, mc)) =
      { label := ml, confidence := min 1 ((lc + mc) / 2 + b), degraded := false }) ∧
    (ml ≠ ll → reconcile b p (ll, lc) (some (ml, mc)) =
      { label := ml, confidence := mc - p, degraded := false }) ∧
    (reconcile b p (ll, lc) none =
      { label := ll, confidence := lc, degraded := true }) ∧
    (∀ m : Option (Label × ℚ), (reconcile b p (ll, lc) m).degraded = true ↔ m = none) ∧
    (∀ lex₂ m₁ m₂, lex₂ = (ll, lc) → m₁ = m₂ →
      reconcile b p lex₂ m₁ = reconcile b p (ll, lc) m₂) := by
  refine ⟨?_, ?_, ?_, ?_, ?_⟩
  · intro h
    simp [reconcile, h]
  · intro h
    simp [reconcile, h]
  · rfl
  · intro m
    match m with
    | none => simp [reconcile]
    | some (mLabel, mConf) =>
      by_cases h : mLabel = ll <;> simp [reconcile, h]
  · intro lex₂ m₁ m₂ h₁ h₂
    rw [h₁, h₂]

/-- Witness for the reconciliation policy at concrete signals: agreeing
positive signals with confidences 3/5 and 4/5, bonus 1/10, combine to
confidence 4/5. -/
theorem reconcile_policy_witness :
    reconcile (1/10) (1/5) (Label.positive, 3/5) (some (Label.positive, 4/5)) =
      { label := Label.positive, confidence := min 1 ((3/5 + 4/5) / 2 + 1/10),
        degraded := false } :=
  (reconcile_policy (1/10) (1/5) (3/5) (4/5) Label.positive Label.positive).1 rfl

/-- Claim C2: for every agent the overall label is the mode of its message
labels: no label has a strictly larger message count; among labels tied on
count the winner has the largest summed confidence; among labels tied on both
the winner has the highest precedence (positive over neutral over negative);
and an agent with zero messages aggregates to neutral with confidence 0. -/
theorem aggregateAgent_mode (msgs : List (Label × ℚ)) (hne : msgs ≠ []) :
    (∀ l, countLabel msgs l ≤ countLabel msgs (aggregateAgent msgs).1) ∧
    (∀ l, countLabel msgs l = countLabel msgs (aggregateAgent msgs).1 →
      sumConf msgs l ≤ sumConf msgs (aggregateAgent msgs).1) ∧
    (∀ l, countLabel msgs l = countLabel msgs (aggregateAgent msgs).1 →
      sumConf msgs l = sumConf msgs (aggregateAgent msgs).1 →
      prec l ≤ prec (aggregateAgent msgs).1) ∧
    aggregateAgent [] = (Label.neutral, 0) := by
  have hfst : (aggregateAgent msgs).1 = bestLabel msgs := by
    match msgs with
    | [] => exact absurd rfl hne
    | _ :: _ => rfl
  have hmax : ∀ l, keyGE (keyFor msgs (bestLabel msgs)) (keyFor msgs l) = true :=
    fun l => bestLabel_max msgs l
  refine ⟨?_, ?_, ?_, rfl⟩
  · intro l
    have h := (keyGE_iff _ _).mp (hmax l)
    rw [hfst]
    rcases h with h | ⟨h, _⟩
    · exact le_of_lt h
    · exact le_of_eq h.symm
  · intro l hcnt
    have h := (keyGE_iff _ _).mp (hmax l)
    rw [hfst]
    rw [hfst] at hcnt
    rcases h with h | ⟨_, h' | ⟨h', _⟩⟩
    · simp only [keyFor] at h
      omega
    · exact le_of_lt h'
    · exact le_of_eq h'.symm
  · intro l hcnt hconf
    have h := (keyGE_iff _ _).mp (hmax l)
    rw [hfst]
    rw [hfst] at hcnt hconf
    rcases h with h | ⟨_, h' | ⟨_, h''⟩⟩
    · simp only [keyFor] at h
      omega
    · simp only [keyFor] at h'
      exact absurd hconf (ne_of_lt h')
    · exact h''

/-- Witness for the per-agent aggregation at a concrete message list: two
positive messages and one negative message aggregate to positive, which has
the maximal count, summed confidence among count-ties, and precedence. -/
theorem aggregateAgent_mode_witness :
    (∀ l, countLabel [(Label.positive, 1/2), (Label.positive, 1/2), (Label.negative, 1)] l ≤
      countLabel [(Label.positive, 1/2), (Label.positive, 1/2), (Label.negative, 1)]
        (aggregateAgent [(Label.positive, 1/2), (Label.positive, 1/2), (Label.negative, 1)]).1) ∧
    aggregateAgent ([] : List (Label × ℚ)) = (Label.neutral, 0) :=
  ⟨(aggregateAgent_mode [(Label.positive, 1/2), (Label.positive, 1/2), (Label.negative, 1)]
      (by decide)).1,
   (aggregateAgent_mode [(Label.positive, 1)] (by decide)).2.2.2⟩

theorem rowsFrom_length (tid : String) (url : Option String)
    (ms : List ValidMessage) (i : Nat) : (rowsFrom tid url i ms).length = ms.length := by
  induction ms generalizing i with
  | nil => rfl
  | cons m rest ih => simp [rowsFrom, ih]

theorem rowsFrom_tid (tid : String) (url : Option String)
    (ms : List ValidMessage) (i : Nat) :
    ∀ r ∈ rowsFrom tid url i ms, r.transcriptId = tid := by
  induction ms generalizing i with
  | nil => intro r hr; simp [rowsFrom] at hr
  | cons m rest ih =>
    intro r hr
    simp only [rowsFrom, List.mem_cons] at hr
    rcases hr with hr | hr
    · rw [hr]
    · exact ih (i + 1) r hr

theorem rowsFrom_map_position (tid : String) (url : Option String)
    (ms : List ValidMessage) (i : Nat) :
    (rowsFrom tid url i ms).map Row.position = List.range' i ms.length := by
  induction ms generalizing i with
  | nil => rfl
  | cons m rest ih => simp [rowsFrom, List.range'_succ, ih]

theorem flattenRows_mem_tid (ts : List CleanedTranscript) :
    ∀ r ∈ flattenRows ts, r.transcriptId ∈ ts.map CleanedTranscript.tid := by
  induction ts with
  | nil => intro r hr; simp [flattenRows] at hr
  | cons t rest ih =>
    intro r hr
    simp only [flattenRows, List.mem_append] at hr
    rcases hr with hr | hr
    · simp only [List.map_cons, List.mem_cons]
      exact Or.inl (rowsFrom_tid t.tid t.articleUrl t.messages 0 r
        (by simpa [transcriptRows] using hr))
    · simp only [List.map_cons, List.mem_cons]
      exact Or.inr (ih r hr)

theorem filter_transcriptRows_self (t : CleanedTranscript) :
    (transcriptRows t).filter (fun r => decide (r.transcriptId = t.tid)) =
      transcriptRows t := by
  apply List.filter_eq_self.mpr
  intro r hr
  simp [rowsFrom_tid t.tid t.articleUrl t.messages 0 r hr]

theorem filter_transcriptRows_ne (t : CleanedTranscript) (tid : String)
    (h : t.tid ≠ tid) :
    (transcriptRows t).filter (fun r => decide (r.transcriptId = tid)) = [] := by
  apply List.filter_eq_nil_iff.mpr
  intro r hr
  simp [rowsFrom_tid t.tid t.articleUrl t.messages 0 r hr, h]

/-- Claim C3: the Tabular Transformer's output has as many rows as the sum of
the surviving message counts over all cleaned transcripts, and, when the
transcript ids are distinct, the rows of each transcript carry exactly the
ordinal positions 0, 1, ..., n-1 in content order. -/
theorem flattenRows_shape (ts : List CleanedTranscript)
    (huniq : (ts.map CleanedTranscript.tid).Nodup) :
    (flattenRows ts).length = (ts.map (fun t => t.messages.length)).sum ∧
    ∀ t ∈ ts, ((flattenRows ts).filter
        (fun r => decide (r.transcriptId = t.tid))).map Row.position =
      List.range t.messages.length := by
  constructor
  · clear huniq
    induction ts with
    | nil => rfl
    | cons t rest ih =>
      simp [flattenRows, transcriptRows, rowsFrom_length, ih]
  · induction ts with
    | nil => intro t ht; simp at ht
    | cons t₀ rest ih =>
      intro t ht
      simp only [List.map_cons, List.nodup_cons] at huniq
      rcases List.mem_cons.mp ht with rfl | ht
      · have hrest : (flattenRows rest).filter
            (fun r => decide (r.transcriptId = t.tid)) = [] := by
          apply List.filter_eq_nil_iff.mpr
          intro r hr
          have hmem := flattenRows_mem_tid rest r hr
          simp only [decide_eq_true_eq]
          intro hEq
          exact huniq.1 (hEq ▸ hmem)
        simp only [flattenRows, List.filter_append, hrest, List.append_nil,
          filter_transcriptRows_self]
        unfold transcriptRows
        rw [rowsFrom_map_position, List.range_eq_range']
      · have hne : t₀.tid ≠ t.tid := by
          intro hEq
          exact huniq.1 (hEq ▸ List.mem_map_of_mem CleanedTranscript.tid ht)
        simp only [flattenRows, List.filter_append,
          filter_transcriptRows_ne t₀ t.tid hne, List.nil_append]
        exact ih huniq.2 t ht

/-- Witness for the transformer shape at a concrete two-transcript dataset:
three total rows, and per-transcript positions 0,1 and 0. -/
theorem flattenRows_shape_witness :
    (flattenRows
      [⟨"t1", some "u", [⟨"hello", "agent_1"⟩, ⟨"world", "agent_2"⟩]⟩,
       ⟨"t2", none, [⟨"bye", "agent_1"⟩]⟩]).length =
      ([(2 : Nat), 1]).sum ∧
    ((flattenRows
      [⟨"t1", some "u", [⟨"hello", "agent_1"⟩, ⟨"world", "agent_2"⟩]⟩,
       ⟨"t2", none, [⟨"bye", "agent_1"⟩]⟩]).filter
        (fun r => decide (r.transcriptId = "t1"))).map Row.position = List.range 2 := by
  have h := flattenRows_shape
    [⟨"t1", some "u", [⟨"hello", "agent_1"⟩, ⟨"world", "agent_2"⟩]⟩,
     ⟨"t2", none, [⟨"bye", "agent_1"⟩]⟩] (by decide)
  exact ⟨h.1, h.2 ⟨"t1", some "u", [⟨"hello", "agent_1"⟩, ⟨"world", "agent_2"⟩]⟩ (by decide)⟩

theorem articleMessageCount_eq_count (rows : List Row) (k : String) :
    articleMessageCount rows k = (rows.map articleKey).count k := by
  rw [articleMessageCount, ← List.countP_eq_length_filter, List.count,
    List.countP_map]
  rfl

/-- Claim C4: the message counts of all article buckets, the synthetic
"unknown" bucket included, sum to the dataset's total message count; a row
without an article URL is grouped under "unknown" and every row belongs to a
bucket that appears in the bucket list. -/
theorem article_buckets_total (rows : List Row) :
    ((articleKeys rows).map (articleMessageCount rows)).sum =
      datasetTotalMessages rows ∧
    (∀ r ∈ rows, r.articleUrl = none → articleKey r = "unknown") ∧
    (∀ r ∈ rows, articleKey r ∈ articleKeys rows) := by
  refine ⟨?_, ?_, ?_⟩
  · have hmap : (articleKeys rows).map (articleMessageCount rows) =
        ((rows.map articleKey).dedup).map (fun k => (rows.map articleKey).count k) :=
      List.map_congr_left (fun k _ => articleMessageCount_eq_count rows k)
    rw [hmap, List.sum_map_count_dedup_eq_length, List.length_map]
    rfl
  · intro r _ h
    simp [articleKey, h]
  · intro r hr
    simp only [articleKeys, List.mem_dedup]
    exact List.mem_map_of_mem articleKey hr

/-- Witness for the article bucket totals at a concrete one-row sequence
whose row has no article URL: its key is the "unknown" bucket, which appears
in the bucket list. -/
theorem article_buckets_total_witness :
    articleKey ⟨"t1", none, "agent_1", 0, "hi"⟩ = "unknown" ∧
    articleKey ⟨"t1", none, "agent_1", 0, "hi"⟩ ∈
      articleKeys [⟨"t1", none, "agent_1", 0, "hi"⟩] :=
  ⟨(article_buckets_total [⟨"t1", none, "agent_1", 0, "hi"⟩]).2.1
      ⟨"t1", none, "agent_1", 0, "hi"⟩ (List.mem_cons_self _ _) rfl,
   (article_buckets_total [⟨"t1", none, "agent_1", 0, "hi"⟩]).2.2
      ⟨"t1", none, "agent_1", 0, "hi"⟩ (List.mem_cons_self _ _)⟩

/-- Claim C5: an agent with zero rows in the scored sequence gets
AgentStatistics with message count 0, average word count exactly 0 and
average sentiment confidence exactly 0, with no division error; and in every
aggregation the average of an empty collection is exactly 0. -/
theorem agentStatistics_empty (rows : List ScoredRow) (a : String)
    (h : rows.filter (fun r => r.row.agent == a) = []) :
    (agentStatistics rows a).totalMessages = 0 ∧
    (agentStatistics rows a).avgWordCount = 0 ∧
    (agentStatistics rows a).avgSentimentConfidence = 0 ∧
    (∀ l : List ℚ, l = [] → avgQ l = 0) := by
  refine ⟨?_, ?_, ?_, ?_⟩
  · simp [agentStatistics, h]
  · simp [agentStatistics, h, avgQ]
  · simp [agentStatistics, h, avgQ]
  · intro l hl
    simp [hl, avgQ]

/-- Witness for empty-agent statistics: a one-row sequence owned by agent_1
yields all-zero statistics for agent_2. -/
theorem agentStatistics_empty_witness :
    (agentStatistics [⟨⟨"t1", none, "agent_1", 0, "hi"⟩, Label.neutral, 1/2⟩]
      "agent_2").totalMessages = 0 ∧
    (agentStatistics [⟨⟨"t1", none, "agent_1", 0, "hi"⟩, Label.neutral, 1/2⟩]
      "agent_2").avgWordCount = 0 ∧
    (agentStatistics [⟨⟨"t1", none, "agent_1", 0, "hi"⟩, Label.neutral, 1/2⟩]
      "agent_2").avgSentimentConfidence = 0 ∧
    (∀ l : List ℚ, l = [] → avgQ l = 0) :=
  agentStatistics_empty [⟨⟨"t1", none, "agent_1", 0, "hi"⟩, Label.neutral, 1/2⟩]
    "agent_2" (by decide)

theorem find?_filter_of_imp {α : Type} (l : List α) (p P : α → Bool)
    (h : ∀ a, p a = true → P a = true) :
    (l.filter P).find? p = l.find? p := by
  induction l with
  | nil => rfl
  | cons a rest ih =>
    by_cases hP : P a = true
    · rw [List.filter_cons_of_pos hP]
      by_cases hp : p a = true
      · rw [List.find?_cons_of_pos _ hp, List.find?_cons_of_pos _ hp]
      · rw [List.find?_cons_of_neg, List.find?_cons_of_neg, ih]
        · simpa using hp
        · simpa using hp
    · have hp : ¬ p a = true := fun hpa => hP (h a hpa)
      rw [List.filter_cons_of_neg, List.find?_cons_of_neg, ih]
      · simpa using hp
      · simpa using hP

theorem dedupKeepFirst_sublist {α K : Type} [DecidableEq K] (key : α → K) :
    ∀ l : List α, (dedupKeepFirst key l).Sublist l := by
  intro l
  induction l using dedupKeepFirst.induct key with
  | case1 => simp [dedupKeepFirst]
  | case2 x rest ih =>
    rw [dedupKeepFirst]
    exact (ih.trans (List.filter_sublist rest)).cons₂ x

theorem dedupKeepFirst_key_nodup {α K : Type} [DecidableEq K] (key : α → K) :
    ∀ l : List α, ((dedupKeepFirst key l).map key).Nodup := by
  intro l
  induction l using dedupKeepFirst.induct key with
  | case1 => simp [dedupKeepFirst]
  | case2 x rest ih =>
    rw [dedupKeepFirst]
    simp only [List.map_cons, List.nodup_cons]
    refine ⟨?_, ih⟩
    intro hmem
    rcases List.mem_map.mp hmem with ⟨y, hy, hkey⟩
    have hyf : y ∈ rest.filter (fun y => key y ≠ key x) :=
      (dedupKeepFirst_sublist key _).mem hy
    have hne := (List.mem_filter.mp hyf).2
    simp only [decide_eq_true_eq] at hne
    exact hne hkey

theorem dedupKeepFirst_covers {α K : Type} [DecidableEq K] (key : α → K) :
    ∀ l : List α, ∀ x ∈ l, ∃ y ∈ dedupKeepFirst key l, key y = key x := by
  intro l
  induction l using dedupKeepFirst.induct key with
  | case1 => intro x hx; simp at hx
  | case2 z rest ih =>
    intro x hx
    rcases List.mem_cons.mp hx with rfl | hx
    · refine ⟨x, ?_, rfl⟩
      rw [dedupKeepFirst]
      exact List.mem_cons_self x _
    · by_cases hk : key x = key z
      · refine ⟨z, ?_, hk.symm⟩
        rw [dedupKeepFirst]
        exact List.mem_cons_self z _
      · have hxf : x ∈ rest.filter (fun y => key y ≠ key z) :=
          List.mem_filter.mpr ⟨hx, by simpa using hk⟩
        rcases ih x hxf with ⟨y, hy, hkey⟩
        refine ⟨y, ?_, hkey⟩
        rw [dedupKeepFirst]
        exact List.mem_cons_of_mem z hy

theorem dedupKeepFirst_first {α K : Type} [DecidableEq K] (key : α → K) :
    ∀ l : List α, ∀ y ∈ dedupKeepFirst key l,
      l.find? (fun x => decide (key x = key y)) = some y := by
  intro l
  induction l using dedupKeepFirst.induct key with
  | case1 => intro y hy; simp [dedupKeepFirst] at hy
  | case2 z rest ih =>
    intro y hy
    rw [dedupKeepFirst] at hy
    rcases List.mem_cons.mp hy with rfl | hy
    · rw [List.find?_cons_of_pos]
      simp
    · have hyf : y ∈ rest.filter (fun w => key w ≠ key z) :=
        (dedupKeepFirst_sublist key _).mem hy
      have hkey : key y ≠ key z := by
        have hne := (List.mem_filter.mp hyf).2
        simpa using hne
      rw [List.find?_cons_of_neg]
      · rw [← find?_filter_of_imp rest (fun x => decide (key x = key y))
          (fun w => decide (key w ≠ key z))]
        · exact ih y hy
        · intro a ha
          simp only [decide_eq_true_eq] at ha ⊢
          rw [ha]
          exact hkey
      · simpa using (Ne.symm hkey)

/-- Claim C6: `transform` is deterministic over its input — running it twice
on the same raw dataset yields identical row sequences — and the Cleaner's
deduplication removes duplicates of the same text and agent within a
transcript keeping exactly the first occurrence in original order: the
cleaned messages carry pairwise distinct text-and-agent keys, form a sublist
(hence original order) of the normalized surviving messages, cover every
surviving message's key, and each kept message is the first surviving
message with its key. -/
theorem transform_deterministic (d : List (String × Raw)) (ms : List ValidMessage) :
    transform d = transform d ∧
    ((cleanMessages ms).map msgKey).Nodup ∧
    (cleanMessages ms).Sublist (preClean ms) ∧
    (∀ x ∈ preClean ms, ∃ y ∈ cleanMessages ms, msgKey y = msgKey x) ∧
    (∀ y ∈ cleanMessages ms,
      (preClean ms).find? (fun x => decide (msgKey x = msgKey y)) = some y) :=
  ⟨rfl, dedupKeepFirst_key_nodup msgKey _, dedupKeepFirst_sublist msgKey _,
   dedupKeepFirst_covers msgKey _, dedupKeepFirst_first msgKey _⟩

/-- Witness for the cleaner's deduplication at a concrete duplicate pair:
some kept message carries the key of the duplicated message. -/
theorem transform_deterministic_witness :
    ∃ y ∈ cleanMessages [⟨"hi", "agent_1"⟩, ⟨"hi", "agent_1"⟩],
      msgKey y = msgKey ⟨"hi", "agent_1"⟩ :=
  (transform_deterministic [] [⟨"hi", "agent_1"⟩, ⟨"hi", "agent_1"⟩]).2.2.2.1
    ⟨"hi", "agent_1"⟩ (by decide)

/-- Claim C7: the Schema Validator is total and isolating: every dataset
entry lands either in the validated list or in the error list (so one
malformed transcript never aborts the batch and valid entries are still
processed); every reported reason is one of missing_content,
missing_message, missing_agent, not_a_mapping, and each invalid entry gets
exactly one reason; a non-mapping payload yields not_a_mapping, a mapping
without a content sequence yields missing_content, a content element without
a non-empty message string yields missing_message, and one without an agent
string yields missing_agent. -/
theorem validator_no_abort (d : List (String × Raw)) :
    ((validateDataset d).1.length + (validateDataset d).2.length = d.length) ∧
    (∀ pr ∈ (validateDataset d).2,
      pr.2 = Reason.missing_content ∨ pr.2 = Reason.missing_message ∨
      pr.2 = Reason.missing_agent ∨ pr.2 = Reason.not_a_mapping) ∧
    (∀ p : Raw, (∀ fs, p ≠ Raw.obj fs) →
      validateEntry p = .error .not_a_mapping) ∧
    (∀ fs, lookupField fs "content" = none →
      validateEntry (Raw.obj fs) = .error .missing_content) ∧
    (∀ el : Raw, el.field "message" = none →
      checkMessage el = .error .missing_message) ∧
    (∀ el : Raw, ∀ s, el.field "message" = some (.str s) → s ≠ "" →
      el.field "agent" = none → checkMessage el = .error .missing_agent) ∧
    (∀ tid p t, (tid, p) ∈ d → validateEntry p = .ok t →
      (tid, t) ∈ (validateDataset d).1) ∧
    (∀ tid p e, (tid, p) ∈ d → validateEntry p = .error e →
      (tid, e) ∈ (validateDataset d).2) ∧
    (∀ p : Raw, (∃ t, validateEntry p = .ok t) ∨
      ∃ e, validateEntry p = .error e ∧
        ∀ e₂, validateEntry p = .error e₂ → e₂ = e) := by
  refine ⟨?_, ?_, ?_, ?_, ?_, ?_, ?_, ?_, ?_⟩
  · induction d with
    | nil => rfl
    | cons hd rest ih =>
      obtain ⟨tid, p⟩ := hd
      cases hv : validateEntry p <;> simp [validateDataset, hv] <;> omega
  · intro pr _
    obtain ⟨tid, e⟩ := pr
    cases e
    · exact Or.inl rfl
    · exact Or.inr (Or.inl rfl)
    · exact Or.inr (Or.inr (Or.inl rfl))
    · exact Or.inr (Or.inr (Or.inr rfl))
  · intro p h
    cases p with
    | obj fs => exact absurd rfl (h fs)
    | null => rfl
    | bool b => rfl
    | num q => rfl
    | str s => rfl
    | arr els => rfl
  · intro fs h
    simp [validateEntry, h]
  · intro el h
    simp [checkMessage, h]
  · intro el s hm hs ha
    simp [checkMessage, hm, hs, ha]
  · intro tid p t hmem hok
    induction d with
    | nil => simp at hmem
    | cons hd rest ih =>
      obtain ⟨tid₀, p₀⟩ := hd
      rcases List.mem_cons.mp hmem with hEq | hmem'
      · have h1 : tid = tid₀ := congrArg Prod.fst hEq
        have h2 : p = p₀ := congrArg Prod.snd hEq
        subst h1
        subst h2
        simp only [validateDataset, hok]
        exact List.mem_cons_self _ _
      · cases hv : validateEntry p₀ <;> simp only [validateDataset, hv]
        · exact ih hmem'
        · exact List.mem_cons_of_mem _ (ih hmem')
  · intro tid p e hmem herr
    induction d with
    | nil => simp at hmem
    | cons hd rest ih =>
      obtain ⟨tid₀, p₀⟩ := hd
      rcases List.mem_cons.mp hmem with hEq | hmem'
      · have h1 : tid = tid₀ := congrArg Prod.fst hEq
        have h2 : p = p₀ := congrArg Prod.snd hEq
        subst h1
        subst h2
        simp only [validateDataset, herr]
        exact List.mem_cons_self _ _
      · cases hv : validateEntry p₀ <;> simp only [validateDataset, hv]
        · exact List.mem_cons_of_mem _ (ih hmem')
        · exact ih hmem'
  · intro p
    cases hv : validateEntry p with
    | ok t => exact Or.inl ⟨t, rfl⟩
    | error e =>
      refine Or.inr ⟨e, rfl, ?_⟩
      intro e₂ h₂
      exact (Except.error.inj h₂).symm

/-- Witness for the validator at a concrete mixed dataset: the well-formed
entry is processed into the validated list while the non-mapping entry is
reported with reason not_a_mapping. -/
theorem validator_no_abort_witness :
    ("t1", (⟨none, [⟨"hello", "agent_1"⟩]⟩ : ValidTranscript)) ∈
      (validateDataset
        [("t1", Raw.obj [("content",
            Raw.arr [Raw.obj [("message", Raw.str "hello"), ("agent", Raw.str "agent_1")]])]),
         ("t2", Raw.null)]).1 ∧
    ("t2", Reason.not_a_mapping) ∈
      (validateDataset
        [("t1", Raw.obj [("content",
            Raw.arr [Raw.obj [("message", Raw.str "hello"), ("agent", Raw.str "agent_1")]])]),
         ("t2", Raw.null)]).2 := by
  have h := validator_no_abort
    [("t1", Raw.obj [("content",
        Raw.arr [Raw.obj [("message", Raw.str "hello"), ("agent", Raw.str "agent_1")]])]),
     ("t2", Raw.null)]
  refine ⟨?_, ?_⟩
  · exact h.2.2.2.2.2.2.1 "t1"
      (Raw.obj [("content",
        Raw.arr [Raw.obj [("message", Raw.str "hello"), ("agent", Raw.str "agent_1")]])])
      ⟨none, [⟨"hello", "agent_1"⟩]⟩ (List.mem_cons_self _ _) rfl
  · exact h.2.2.2.2.2.2.2.1 "t2" Raw.null Reason.not_a_mapping
      (List.mem_cons_of_mem _ (List.mem_cons_self _ _)) rfl

/-- Claim C8: when the summarization service fails or returns anything other
than a non-empty string, the analyze result's transcript summary is exactly
the fallback "summary unavailable"; a returned summary is surfaced verbatim
exactly when it is a non-empty string; and all other result fields (article
info, per-agent statistics, sentiment distribution) are unaffected by the
service reply. -/
theorem analyze_summary_fallback (t : ValidTranscript) (scorer : String → Label × ℚ)
    (reply : SummaryReply) :
    (analyze t scorer SummaryReply.failure).transcriptSummary =
      "summary unavailable" ∧
    ((∀ s, reply ≠ SummaryReply.value (Raw.str s)) →
      (analyze t scorer reply).transcriptSummary = "summary unavailable") ∧
    (analyze t scorer (SummaryReply.value (Raw.str ""))).transcriptSummary =
      "summary unavailable" ∧
    (∀ s, s ≠ "" →
      (analyze t scorer (SummaryReply.value (Raw.str s))).transcriptSummary = s) ∧
    (∀ r₂, analysisCore (analyze t scorer reply) =
      analysisCore (analyze t scorer r₂)) := by
  refine ⟨rfl, ?_, ?_, ?_, ?_⟩
  · intro h
    cases reply with
    | failure => rfl
    | value v =>
      cases v with
      | str s => exact absurd rfl (h s)
      | null => rfl
      | bool b => rfl
      | num q => rfl
      | arr els => rfl
      | obj fs => rfl
  · simp [analyze, validateSummary]
  · intro s hs
    simp [analyze, validateSummary, hs]
  · intro r₂
    rfl

/-- Witness for the summary fallback at a concrete transcript: a failed
service reply produces the fallback string while a non-empty string reply is
surfaced verbatim. -/
theorem analyze_summary_fallback_witness :
    (analyze ⟨none, [⟨"hi", "agent_1"⟩]⟩ (fun _ => (Label.neutral, 1))
      SummaryReply.failure).transcriptSummary = "summary unavailable" ∧
    (analyze ⟨none, [⟨"hi", "agent_1"⟩]⟩ (fun _ => (Label.neutral, 1))
      (SummaryReply.value (Raw.str "a recap"))).transcriptSummary = "a recap" :=
  ⟨(analyze_summary_fallback ⟨none, [⟨"hi", "agent_1"⟩]⟩ (fun _ => (Label.neutral, 1))
      SummaryReply.failure).2.1 (fun s h => SummaryReply.noConfusion h),
   (analyze_summary_fallback ⟨none, [⟨"hi", "agent_1"⟩]⟩ (fun _ => (Label.neutral, 1))
      SummaryReply.failure).2.2.2.1 "a recap" (by decide)⟩

/-- Claim C9: the frontend analyze click handler issues the POST request only
when the selected input parses as JSON: every alert path returns with the
displayed state unchanged; an empty-after-trim pasted input, a missing
uploaded file content, and a failing JSON.parse each alert and return before
any request; and whenever a request is issued its body parses successfully
and the state is untouched up to that point. -/
theorem analyzeClick_guard (parse : String → Option Raw) (method : InputMethod)
    (st : FrontendState) :
    (∀ msg st₂, analyzeClick parse method st = (.alert msg, st₂) → st₂ = st) ∧
    (method = .paste → jsTrim st.transcriptInputValue = "" →
      analyzeClick parse method st = (.alert "Please paste transcript JSON", st)) ∧
    (method = .paste → jsTrim st.transcriptInputValue ≠ "" →
      parse (jsTrim st.transcriptInputValue) = none →
      analyzeClick parse method st = (.alert "Invalid JSON format", st)) ∧
    (method = .upload → st.fileContent = none →
      analyzeClick parse method st = (.alert "Please upload a JSON file", st)) ∧
    (method = .upload → ∀ fc, st.fileContent = some fc → parse fc = none →
      analyzeClick parse method st = (.alert "Invalid JSON file format", st)) ∧
    (∀ body st₂, analyzeClick parse method st = (.request body, st₂) →
      (∃ v, parse body = some v) ∧ st₂ = st) := by
  refine ⟨?_, ?_, ?_, ?_, ?_, ?_⟩
  · intro msg st₂ h
    cases method with
    | paste =>
      by_cases he : jsTrim st.transcriptInputValue = ""
      · rw [analyzeClick, if_pos he] at h
        exact (congrArg Prod.snd h).symm
      · rw [analyzeClick, if_neg he] at h
        cases hp : parse (jsTrim st.transcriptInputValue) <;> rw [hp] at h
        · exact (congrArg Prod.snd h).symm
        · exact absurd (congrArg Prod.fst h) (by simp)
    | upload =>
      cases hf : st.fileContent with
      | none =>
        simp only [analyzeClick, hf] at h
        exact (congrArg Prod.snd h).symm
      | some fc =>
        cases hp : parse fc
        · simp only [analyzeClick, hf, hp] at h
          exact (congrArg Prod.snd h).symm
        · simp only [analyzeClick, hf, hp] at h
          exact absurd (congrArg Prod.fst h) (by simp)
  · intro hm he
    subst hm
    rw [analyzeClick, if_pos he]
  · intro hm he hp
    subst hm
    rw [analyzeClick, if_neg he, hp]
  · intro hm hf
    subst hm
    simp only [analyzeClick, hf]
  · intro hm fc hf hp
    subst hm
    simp only [analyzeClick, hf, hp]
  · intro body st₂ h
    cases method with
    | paste =>
      by_cases he : jsTrim st.transcriptInputValue = ""
      · rw [analyzeClick, if_pos he] at h
        exact absurd (congrArg Prod.fst h) (by simp)
      · cases hp : parse (jsTrim st.transcriptInputValue) with
        | none =>
          simp only [analyzeClick, if_neg he, hp] at h
          exact absurd (congrArg Prod.fst h) (by simp)
        | some v =>
          simp only [analyzeClick, if_neg he, hp] at h
          have hb : jsTrim st.transcriptInputValue = body := by
            have := congrArg Prod.fst h
            simpa using this
          refine ⟨⟨v, ?_⟩, (congrArg Prod.snd h).symm⟩
          rw [← hb, hp]
    | upload =>
      cases hf : st.fileContent with
      | none =>
        simp only [analyzeClick, hf] at h
        exact absurd (congrArg Prod.fst h) (by simp)
      | some fc =>
        cases hp : parse fc with
        | none =>
          simp only [analyzeClick, hf, hp] at h
          exact absurd (congrArg Prod.fst h) (by simp)
        | some v =>
          simp only [analyzeClick, hf, hp] at h
          have hb : fc = body := by
            have := congrArg Prod.fst h
            simpa using this
          refine ⟨⟨v, ?_⟩, (congrArg Prod.snd h).symm⟩
          rw [← hb, hp]

/-- Witness for the frontend guard at a concrete state: an all-whitespace
pasted input alerts and leaves the state unchanged, for any parse
function. -/
theorem analyzeClick_guard_witness :
    analyzeClick (fun _ => none) InputMethod.paste
      ⟨"   ", none, true, "", ""⟩ =
      (HandlerAction.alert "Please paste transcript JSON",
       ⟨"   ", none, true, "", ""⟩) :=
  (analyzeClick_guard (fun _ => none) InputMethod.paste
    ⟨"   ", none, true, "", ""⟩).2.1 rfl (by decide)

/-- Claim C10: the frontend's Article Information field renders the literal
string N/A whenever analysis.article_url is absent, null, the empty string,
or any falsy value, and renders the article_url string itself otherwise. -/
theorem renderArticleUrl_na (v : JsValue) :
    renderArticleUrl JsValue.undef = "N/A" ∧
    renderArticleUrl JsValue.null = "N/A" ∧
    renderArticleUrl (JsValue.str "") = "N/A" ∧
    (jsTruthy v = false → renderArticleUrl v = "N/A") ∧
    (∀ s, s ≠ "" → renderArticleUrl (JsValue.str s) = s) := by
  refine ⟨rfl, rfl, by simp [renderArticleUrl, jsOr, jsTruthy], ?_, ?_⟩
  · intro h
    simp [renderArticleUrl, jsOr, h]
  · intro s hs
    simp [renderArticleUrl, jsOr, jsTruthy, jsStringOf, hs]

/-- Witness for the Article Information rendering: a non-empty URL string is
shown verbatim and a null value renders as N/A. -/
theorem renderArticleUrl_na_witness :
    renderArticleUrl (JsValue.str "https://example.com/a") = "https://example.com/a" ∧
    renderArticleUrl JsValue.null = "N/A" :=
  ⟨(renderArticleUrl_na (JsValue.str "https://example.com/a")).2.2.2.2
      "https://example.com/a" (by decide),
   (renderArticleUrl_na JsValue.null).2.2.2.1 rfl⟩

end ConversaAI
